import Mathlib

/-!
Verification of the Juraxis legal-document pipeline
(`runpod_juraxis_pipeline.py`) against its natural-language specification.

Texts are modelled as `List Char`.  The embedding restricts Python's
Unicode whitespace / word-character classes to their ASCII fragments;
every concrete input used below is ASCII, where the two coincide.

External collaborators of the pipeline (the NLTK sentence tokenizer, the
DeepSeek tokenizer, BeautifulSoup's tag stripper, hashlib's md5, the
regex engine used for the legal-area / citation patterns, the embedding
model, numpy's mean, and Python's salted built-in `hash`) are modelled
as parameters, bundled in `PipelineEnv`.
-/

namespace Juraxis

/-- Python's whitespace test, restricted to the ASCII whitespace characters
recognised by `str.strip`, `str.split` and the regex class `\s`. -/
def pyIsSpace (c : Char) : Bool :=
  c = ' ' || c = '\t' || c = '\n' || c = '\x0d' || c = '\x0b' || c = '\x0c'

/-- Drop trailing whitespace (the right half of Python's `str.strip`). -/
def stripRight : List Char → List Char
  | [] => []
  | c :: cs =>
    let r := stripRight cs
    if r = [] && pyIsSpace c then [] else c :: r

/-- Python's `str.strip()`: drop leading and trailing whitespace. -/
def pyStrip (s : List Char) : List Char :=
  stripRight (s.dropWhile pyIsSpace)

/-- One pass of whitespace-run collapsing; the flag records whether the
previously read character was whitespace (in which case further whitespace
is dropped rather than emitted). -/
def collapseAux : Bool → List Char → List Char
  | _, [] => []
  | prevSpace, c :: cs =>
    if pyIsSpace c then
      if prevSpace then collapseAux true cs else ' ' :: collapseAux true cs
    else c :: collapseAux false cs

/-- Python's `re.sub(r'\s+', ' ', text)`: replace every maximal run of
whitespace by a single space. -/
def collapseWS (s : List Char) : List Char := collapseAux false s

/-- The non-whitespace content of a text, in order. -/
def nonWS (s : List Char) : List Char := s.filter (fun c => !pyIsSpace c)

/-- Python's `text.split('\n\n')`. -/
def splitOnNN : List Char → List (List Char)
  | [] => [[]]
  | [c] => [[c]]
  | c :: d :: rest =>
    if c = '\n' && d = '\n' then [] :: splitOnNN rest
    else (c :: (splitOnNN (d :: rest)).headD []) :: (splitOnNN (d :: rest)).tail

/-! ## SemanticChunker: `chunk_legal_document` (source lines 622-672)

The NLTK `sent_tokenize` collaborator is a parameter `sentTok`.
The section patterns declared at the top of the Python function are dead
code there (never referenced), so they have no counterpart here. -/

/-- The mutable state of the chunking loops: the emitted chunks and the
running buffer `current_chunk`. -/
structure ChunkState where
  chunks : List (List Char)
  current : List Char

/-- The sentence-level accumulate/flush loop of `chunk_legal_document`
(the `for sentence in sentences:` loop, lines 657-665). -/
def sentLoop (maxSize : Nat) : ChunkState → List (List Char) → ChunkState
  | st, [] => st
  | st, s :: ss =>
    sentLoop maxSize
      (if maxSize < st.current.length + s.length then
        if st.current ≠ [] then
          { chunks := st.chunks ++ [pyStrip st.current], current := s }
        else { st with chunks := st.chunks ++ [s] }
      else { st with current := st.current ++ ' ' :: s }) ss

/-- The paragraph-level loop of `chunk_legal_document` (lines 644-667). -/
def paraLoop (sentTok : List Char → List (List Char)) (maxSize : Nat) :
    ChunkState → List (List Char) → ChunkState
  | st, [] => st
  | st, p0 :: ps =>
    paraLoop sentTok maxSize
      (let p := pyStrip p0
       if p = [] then st
       else if maxSize < st.current.length + p.length then
         if st.current ≠ [] then
           { chunks := st.chunks ++ [pyStrip st.current], current := p }
         else sentLoop maxSize st (sentTok p)
       else { st with current := st.current ++ '\n' :: '\n' :: p }) ps

/-- Embedding of `chunk_legal_document(text, max_chunk_size)`: split on blank-line
paragraph boundaries, accumulate into a buffer, flush when the next unit
would exceed the limit; a too-long paragraph met with an empty buffer is
split into sentences. -/
def finalFlush (st : ChunkState) : List (List Char) :=
  if st.current ≠ [] then st.chunks ++ [pyStrip st.current] else st.chunks

def chunk_legal_document (sentTok : List Char → List (List Char))
    (text : List Char) (max_chunk_size : Nat) : List (List Char) :=
  finalFlush (paraLoop sentTok max_chunk_size ⟨[], []⟩ (splitOnNN text))

/-- The identity sentence tokenizer: the whole paragraph is one sentence. -/
def sentTokId : List Char → List (List Char) := fun p => [p]

/-! Size bound of the chunker (claim C1). -/

/-- What can be said of an emitted chunk: it fits in the limit plus the
two uncounted separator characters, or it is (the strip of) a single
paragraph, or it is (the strip of) a single sentence of a paragraph. -/
def ChunkOk (sentTok : List Char → List (List Char)) (paras : List (List Char))
    (maxSize : Nat) (c : List Char) : Prop :=
  c.length ≤ maxSize + 2
    ∨ (∃ p ∈ paras, c = pyStrip p)
    ∨ (∃ p ∈ paras, ∃ s ∈ sentTok (pyStrip p), c = s ∨ c = pyStrip s)

/-- The corresponding invariant of the running buffer. -/
def CurOk (sentTok : List Char → List (List Char)) (paras : List (List Char))
    (maxSize : Nat) (cur : List Char) : Prop :=
  cur.length ≤ maxSize + 2
    ∨ (∃ p ∈ paras, cur = pyStrip p)
    ∨ (∃ p ∈ paras, ∃ s ∈ sentTok (pyStrip p), cur = s)

/-- A sentence tokenizer splitting on periods (a concrete stand-in for
NLTK's `sent_tokenize` in the counterexample). -/
def sentTokPeriod : List Char → List (List Char) := fun p => p.splitOn '.'

/-! ## TextSanitizer: `sanitize_text_input` (source lines 859-886) -/

/-- The character replacements of lines 870-878: brackets and braces to
parentheses, backslash to slash, pipe to dash, the remaining regex
metacharacters to spaces.  The sequential `str.replace` calls commute
with a per-character map because no replacement output is itself a later
replacement target. -/
def step1 (c : Char) : Char :=
  if c = '[' then '(' else if c = ']' then ')'
  else if c = '\x7b' then '(' else if c = '\x7d' then ')'
  else if c = '\\' then '/' else if c = '|' then '-'
  else if c = '^' then ' ' else if c = '$' then ' '
  else if c = '*' then ' ' else if c = '+' then ' '
  else if c = '?' then ' ' else c

/-- The regex class `\w`, restricted to ASCII. -/
def pyIsWord (c : Char) : Bool := c.isAlphanum || c = '_'

/-- The allow-list of line 881: `[\w\s\-\.\,\:\;\(\)\'\"\/\&\%\#\@\!]`. -/
def allowedChar (c : Char) : Bool :=
  pyIsWord c || pyIsSpace c
    || c = '-' || c = '.' || c = ',' || c = ':' || c = ';' || c = '(' || c = ')'
    || c = '\'' || c = '"' || c = '/' || c = '&' || c = '%' || c = '#' || c = '@' || c = '!'

/-- Line 881: every character outside the allow-list becomes a space. -/
def step2 (c : Char) : Char := if allowedChar c then c else ' '

/-- Embedding of `sanitize_text_input(text)`: metacharacter replacement, allow-list
filtering, whitespace collapsing, strip.  Empty input yields empty output. -/
def sanitize_text_input (text : List Char) : List Char :=
  if text = [] then []
  else pyStrip (collapseWS ((text.map step1).map step2))

/-! ## LegalClassifier: `extract_legal_metadata` (source lines 541-620),
`determine_court_level` (1232-1244), `calculate_court_authority_weight`
(1246-1258)

The regex engine applied to the legal-area patterns and to the compiled
citation patterns is external; it enters as the parameters `search`
(`re.search` as a Boolean) and `findall` (`pattern.findall`).  Python's
`list(set(...))` deduplication (whose iteration order is unspecified) is
modelled by `List.eraseDups`.  The `re.escape(text.lower())` computed at
line 558 is never used by the Python function and has no counterpart. -/

structure LegalMetadata where
  court_level : List Char
  jurisdiction : List Char
  legal_areas : List (List Char)
  authority_weight : ℚ
  binding_jurisdictions : List (List Char)
  citations_extracted : List (List Char)
  citations_validated : List (List Char × Bool × List Char)

/-- The all-unknown default metadata built at lines 543-551. -/
def defaultMetadata : LegalMetadata :=
  ⟨"unknown".toList, "unknown".toList, [], 1/10, [], [], []⟩

/-- The `court_hierarchy` dict (lines 300-307) together with the
`.get(..., 0.1)` lookup of lines 594-596. -/
def court_hierarchy (level : List Char) : ℚ :=
  if level = "supreme".toList then 1
  else if level = "appellate".toList then 4/5
  else if level = "district".toList then 3/5
  else if level = "administrative".toList then 2/5
  else if level = "municipal".toList then 1/5
  else if level = "unknown".toList then 1/10
  else 1/10

/-- Python `text.lower()` (ASCII fragment). -/
def lowerStr (s : List Char) : List Char := s.map Char.toLower

/-- Contiguous-substring test over lists (Python's `needle in hay`). -/
def infixOfList (needle : List Char) : List Char → Bool
  | [] => needle.isEmpty
  | c :: rest => needle.isPrefixOf (c :: rest) || infixOfList needle rest

/-- Python's substring test `needle in hay`. -/
def containsSub (needle : String) (hay : List Char) : Bool :=
  infixOfList needle.toList hay

/-- Court-level cascade of lines 562-569: first matching rule wins. -/
def court_level_of (tl : List Char) : List Char :=
  if containsSub "supreme court" tl || containsSub "scotus" tl then
    "supreme".toList
  else if containsSub "court of appeals" tl || containsSub "appellate" tl
      || containsSub "circuit" tl then
    "appellate".toList
  else if containsSub "district court" tl || containsSub "trial court" tl then
    "district".toList
  else if containsSub "administrative" tl || containsSub "agency" tl then
    "administrative".toList
  else "unknown".toList

/-- Jurisdiction cascade of lines 572-577. -/
def jurisdiction_of (tl : List Char) : List Char :=
  if containsSub "united states" tl || containsSub "federal" tl
      || containsSub "u.s." tl then
    "federal".toList
  else if containsSub "state" tl || containsSub "commonwealth" tl then
    "state".toList
  else if containsSub "municipal" tl || containsSub "city" tl
      || containsSub "county" tl then
    "local".toList
  else "unknown".toList

/-- The `legal_area_patterns` table of lines 310-335 (raw regex sources;
their application is the external `search` parameter). -/
def legal_area_patterns : List (List Char × List (List Char)) :=
  [("constitutional".toList,
    ["constitutional\\s+law".toList, "first\\s+amendment".toList,
     "fourteenth\\s+amendment".toList, "due\\s+process".toList,
     "equal\\s+protection".toList, "bill\\s+of\\s+rights".toList]),
   ("contract".toList,
    ["contract\\s+law".toList, "breach\\s+of\\s+contract".toList,
     "consideration".toList, "offer\\s+and\\s+acceptance".toList,
     "contractual\\s+obligation".toList]),
   ("tort".toList,
    ["tort\\s+law".toList, "negligence".toList, "personal\\s+injury".toList,
     "defamation".toList, "intentional\\s+tort".toList, "strict\\s+liability".toList]),
   ("criminal".toList,
    ["criminal\\s+law".toList, "criminal\\s+procedure".toList, "evidence".toList,
     "sentencing".toList, "fourth\\s+amendment".toList]),
   ("corporate".toList,
    ["corporate\\s+law".toList, "securities".toList,
     "mergers\\s+and\\s+acquisitions".toList, "corporate\\s+governance".toList,
     "fiduciary\\s+duty".toList]),
   ("property".toList,
    ["property\\s+law".toList, "real\\s+estate".toList,
     "intellectual\\s+property".toList, "trademark".toList, "copyright".toList,
     "patent".toList])]

/-- Legal-area loop of lines 580-591: an area is included when some of
its patterns matches (inner `break` on the first match), deduplicated. -/
def legal_areas_of (search : List Char → List Char → Bool) (tl : List Char) :
    List (List Char) :=
  ((legal_area_patterns.filter fun ap => ap.2.any fun pat => search pat tl).map
    Prod.fst).eraseDups

/-- The `citation_patterns` table of lines 338-344. -/
def citation_patterns : List (List Char) :=
  ["\\d+\\s+U\\.S\\.\\s+\\d+".toList,
   "\\d+\\s+S\\.\\s+Ct\\.\\s+\\d+".toList,
   "\\d+\\s+F\\.\\d+d\\s+\\d+".toList,
   "\\d+\\s+F\\.\\s+Supp\\.\\s+\\d+".toList,
   "\\d+\\s+[A-Z][a-z]*\\s+\\d+".toList]

/-- Citation loop of lines 599-607: concatenate each compiled pattern's
`findall` over the raw text, deduplicated. -/
def citations_of (findall : List Char → List Char → List (List Char))
    (text : List Char) : List (List Char) :=
  ((citation_patterns.map fun pat => findall pat text).flatten).eraseDups

/-- Embedding of `extract_legal_metadata(text)`: the classification contract of
lines 541-620. -/
def extract_legal_metadata (search : List Char → List Char → Bool)
    (findall : List Char → List Char → List (List Char))
    (text : List Char) : LegalMetadata :=
  if text = [] then defaultMetadata
  else
    let tl := lowerStr text
    let level := court_level_of tl
    let cits := citations_of findall text
    { court_level := level
      jurisdiction := jurisdiction_of tl
      legal_areas := legal_areas_of search tl
      authority_weight := court_hierarchy level
      binding_jurisdictions := []
      citations_extracted := cits
      citations_validated := cits.map fun c => (c, true, level) }

/-- Embedding of `determine_court_level(court_name)` (lines 1232-1244); note it keys
on the bare word `'supreme'`, unlike `extract_legal_metadata`. -/
def determine_court_level (court_name : List Char) : List Char :=
  let cl := lowerStr court_name
  if containsSub "supreme" cl then "supreme".toList
  else if containsSub "appeal" cl || containsSub "appellate" cl
      || containsSub "circuit" cl then "appellate".toList
  else if containsSub "district" cl || containsSub "trial" cl
      || containsSub "superior" cl then "district".toList
  else "unknown".toList

/-- Embedding of `calculate_court_authority_weight(court_name)` (lines 1246-1258). -/
def calculate_court_authority_weight (court_name : List Char) : ℚ :=
  let level := determine_court_level court_name
  if level = "supreme".toList then 1
  else if level = "appellate".toList then 4/5
  else if level = "district".toList then 3/5
  else 3/10

/-- A regex-search stand-in that never matches. -/
def noSearch : List Char → List Char → Bool := fun _ _ => false

/-- A `findall` stand-in that finds nothing. -/
def noFindall : List Char → List Char → List (List Char) := fun _ _ => []

/-! ## ContextBudgeter: `optimize_for_deepseek_r1` (source lines 674-706)

The DeepSeek tokenizer is external: `enc`/`dec` parameters; `hasTok`
models `self.deepseek_tokenizer is not None`. -/

/-- The literal truncation marker spliced in at line 702. -/
def truncationMarker : List Char :=
  "\n\n[... CONTENT TRUNCATED FOR DEEPSEEK R1 OPTIMIZATION ...]\n\n".toList

/-- Embedding of `optimize_for_deepseek_r1(text)`: pass-through without a tokenizer or
within the 32,000-token budget; otherwise keep the first and last
`32000 // 3` tokens and splice the marker at the length of the decoded
head (Python `tokens[-keep_end:]` is `drop (length - keep_end)`). -/
def optimize_for_deepseek_r1 (hasTok : Bool) (enc : List Char → List Nat)
    (dec : List Nat → List Char) (text : List Char) : List Char :=
  if !hasTok then text
  else
    let max_tokens := 32000
    let tokens := enc text
    if tokens.length ≤ max_tokens then text
    else
      let keep_start := max_tokens / 3
      let keep_end := max_tokens / 3
      let start_tokens := tokens.take keep_start
      let end_tokens := tokens.drop (tokens.length - keep_end)
      let optimized_text := dec (start_tokens ++ end_tokens)
      let cut := (dec start_tokens).length
      optimized_text.take cut ++ truncationMarker ++ optimized_text.drop cut

/-- The marker string the claim asserts, with no space around the words. -/
def claimedMarker : List Char := "...CONTENT TRUNCATED...".toList

/-- A tokenizer pair driving the budgeter into its truncation branch on
any input: `encBig` reports 32,001 tokens. -/
def encBig : List Char → List Nat := fun _ => List.replicate 32001 0

/-- The matching decoder: the 21,332-token truncation decodes to `"X"`,
anything else to `""`. -/
def decCount : List Nat → List Char := fun ts => if ts.length = 21332 then ['X'] else []

/-! Whitespace-normal form: every whitespace character is a plain space
and no two adjacent characters are both whitespace.  The flag plays the
same role as in `collapseAux`. -/

def wsNormalAux : Bool → List Char → Bool
  | _, [] => true
  | afterSpace, c :: cs =>
    if pyIsSpace c then decide (c = ' ') && !afterSpace && wsNormalAux true cs
    else wsNormalAux false cs

/-! ## `clean_text` (source lines 835-857)

For empty input it returns `""` (line 838).  For any non-empty input
the function RAISES `re.error`: line 855 reads
`text = re.sub(r'['']', "'", text)`, which Python parses as the two
adjacent string literals `r'['` and `']'`, i.e. the single pattern
`'[]'` — an unterminated character set that `re.sub` rejects when
compiling the pattern, before reading the text.  The transformations of
lines 841-854 (tag stripping when both `<` and `>` occur, whitespace
collapsing, the then-vacuous blank-line substitution, ellipsis capping,
and the identity substitution of `'"'` by `'"'` — line 854's class
`[""]` holds two plain double quotes, not curly ones) are computed and
then lost to the exception; `Except.error ()` models the raise. -/
def clean_text (_getText : List Char → List Char) (text : List Char) :
    Except Unit (List Char) :=
  if text = [] then .ok [] else .error ()

/-! ## The pipeline environment: external collaborators as parameters.

`α` is the opaque type of embedding vectors. -/

structure PipelineEnv (α : Type) where
  /-- BeautifulSoup's `get_text`. -/
  getText : List Char → List Char
  /-- Whether `self.deepseek_tokenizer is not None`. -/
  hasTok : Bool
  /-- The DeepSeek tokenizer's `encode`. -/
  enc : List Char → List Nat
  /-- The DeepSeek tokenizer's `decode`. -/
  dec : List Nat → List Char
  /-- NLTK's `sent_tokenize`. -/
  sentTok : List Char → List (List Char)
  /-- The hash `hashlib.md5(...).hexdigest()`. -/
  md5hex : List Char → List Char
  /-- The test `re.search(pattern, text)` as a Boolean, for the legal-area patterns. -/
  search : List Char → List Char → Bool
  /-- The matcher `pattern.findall(text)` for the compiled citation patterns. -/
  findall : List Char → List Char → List (List Char)
  /-- The call `generate_embeddings(texts)`: one whole-call result, `[]` on failure. -/
  embedBatch : List (List Char) → List α
  /-- The mean `np.mean(vectors, axis=0)`. -/
  meanVec : List α → α
  /-- Python's built-in `hash` on strings — salted per process
  (PYTHONHASHSEED), hence a parameter of the run, not a constant. -/
  pyHash : List Char → Int

/-- A raw record as consumed by `process_legal_document` and produced by
the CSV converters: each field optional, mirroring `dict.get`. -/
structure RawRecord where
  id : Option (List Char) := none
  case_name : Option (List Char) := none
  citation : Option (List Char) := none
  court : Option (List Char) := none
  court_level : Option (List Char) := none
  jurisdiction : Option (List Char) := none
  date_decided : Option (List Char) := none
  full_text : Option (List Char) := none
  plain_text : Option (List Char) := none
  html : Option (List Char) := none
  legal_areas : Option (List (List Char)) := none
  authority_weight : Option ℚ := none
  binding_jurisdictions : Option (List (List Char)) := none
  citations_extracted : Option (List (List Char)) := none
  citations_validated : Option (List (List Char × Bool × List Char)) := none

/-- The `LegalDocument` dataclass (source lines 92-111). -/
structure LegalDocument (α : Type) where
  id : List Char
  case_name : List Char
  citation : List Char
  court : List Char
  court_level : List Char
  jurisdiction : List Char
  date_decided : List Char
  full_text : List Char
  plain_text : List Char
  legal_areas : List (List Char)
  authority_weight : ℚ
  binding_jurisdictions : List (List Char)
  citations_extracted : List (List Char)
  citations_validated : List (List Char × Bool × List Char)
  embedding : Option α
  chunk_embeddings : List α
  metadata : LegalMetadata

/-- Embedding of `process_legal_document(doc_data)` (source lines 740-833).  Returns
`none` when there is no text (line 752) and when any step raises (the
`except` of line 809 logs and returns `None`).  Since `clean_text`
raises on every non-empty text, the `.ok` branch below is dead code in
the program as written; it is still embedded faithfully. -/
def process_legal_document (env : PipelineEnv α) (doc_data : RawRecord) :
    Option (LegalDocument α) :=
  let case_name := sanitize_text_input (doc_data.case_name.getD "Unknown Case".toList)
  let citation := sanitize_text_input (doc_data.citation.getD [])
  let court := sanitize_text_input (doc_data.court.getD "Unknown Court".toList)
  let full_text := doc_data.plain_text.getD (doc_data.html.getD [])
  if full_text = [] then none
  else
    match clean_text env.getText full_text with
    | .error _ => none
    | .ok plain_text =>
      let optimized_text := optimize_for_deepseek_r1 env.hasTok env.enc env.dec plain_text
      let metadata := extract_legal_metadata env.search env.findall plain_text
      let doc_id := env.md5hex (case_name ++ '_' :: citation)
      let chunks := chunk_legal_document env.sentTok optimized_text 1000
      let chunk_embeddings := if chunks.isEmpty then [] else env.embedBatch chunks
      some
        { id := doc_id
          case_name := case_name
          citation := citation
          court := court
          court_level := metadata.court_level
          jurisdiction := metadata.jurisdiction
          date_decided := doc_data.date_decided.getD []
          full_text := full_text
          plain_text := optimized_text
          legal_areas := metadata.legal_areas
          authority_weight := metadata.authority_weight
          binding_jurisdictions := metadata.binding_jurisdictions
          citations_extracted := metadata.citations_extracted
          citations_validated := metadata.citations_validated
          embedding := if chunk_embeddings.isEmpty then none
            else some (env.meanVec chunk_embeddings)
          chunk_embeddings := chunk_embeddings
          metadata := metadata }

/-- A record of a citation CSV row (`convert_citation_row_to_document`'s
input), fields optional like `row.get`. -/
structure CitationRow where
  id : Option (List Char) := none
  citing_opinion : Option (List Char) := none
  cited_opinion : Option (List Char) := none

/-- Embedding of `convert_citation_row_to_document(row)` (source lines 1207-1230). -/
def convert_citation_row_to_document (row : CitationRow) : RawRecord :=
  let citing_opinion := sanitize_text_input (row.citing_opinion.getD "Unknown".toList)
  let cited_opinion := sanitize_text_input (row.cited_opinion.getD "Unknown".toList)
  let citation_id := sanitize_text_input (row.id.getD [])
  { id := some ("citation_".toList ++ citation_id)
    case_name := some ("Citation Network: ".toList ++ citing_opinion
      ++ " → ".toList ++ cited_opinion)
    citation := some ("Citation ID: ".toList ++ citation_id)
    court := some "Citation Database".toList
    court_level := some "database".toList
    jurisdiction := some "multi_jurisdiction".toList
    date_decided := some []
    full_text := some ("Citation relationship: ".toList ++ citing_opinion
      ++ " cites ".toList ++ cited_opinion)
    plain_text := some ("This citation links opinion ".toList ++ citing_opinion
      ++ " to ".toList ++ cited_opinion ++ ".".toList)
    legal_areas := some ["citation_analysis".toList]
    authority_weight := some (1/2)
    binding_jurisdictions := some ["multi_jurisdiction".toList]
    citations_extracted := some [cited_opinion]
    citations_validated := some [] }

/-- A concrete citation CSV row. -/
def citationRow0 : CitationRow :=
  { id := some "1".toList, citing_opinion := some "2".toList,
    cited_opinion := some "3".toList }

/-! ## IndexWriter, relational side: `store_in_sqlite` (source
lines 954-1006)

The `documents` table has `id TEXT PRIMARY KEY`, so its
`INSERT OR REPLACE` deletes the conflicting row and appends the new one.
The `embeddings` table has no uniqueness constraint, so its
`INSERT OR REPLACE` behaves as a plain insert. -/

/-- One row of the `embeddings` table (columns of lines 990-999). -/
structure EmbRow (α : Type) where
  document_id : List Char
  chunk_id : Nat
  embedding : α
  chunk_text : List Char

/-- The relational cache: the `documents` and `embeddings` tables in
insertion order (the `processing_log` table is never written by the
embedded operations). -/
structure SqliteState (α : Type) where
  documents : List (LegalDocument α)
  embeddings : List (EmbRow α)

/-- The write `INSERT OR REPLACE INTO documents` keyed by `id`. -/
def upsertDocRow (tbl : List (LegalDocument α)) (d : LegalDocument α) :
    List (LegalDocument α) :=
  (tbl.filter fun r => r.id != d.id) ++ [d]

/-- The `embeddings` rows written for one document (lines 987-999): the
`chunk_text` column receives the placeholder `f"Chunk {i}"`, never the
chunk's text (the code's own comment: "Would store actual chunk text in
production"). -/
def embRowsOf (d : LegalDocument α) : List (EmbRow α) :=
  d.chunk_embeddings.enum.map fun ie =>
    ⟨d.id, ie.1, ie.2, "Chunk ".toList ++ (Nat.repr ie.1).toList⟩

/-- Embedding of `store_in_sqlite(legal_docs)`: per document, upsert the document row
and insert its chunk-embedding rows. -/
def store_in_sqlite (st : SqliteState α) (legal_docs : List (LegalDocument α)) :
    SqliteState α :=
  legal_docs.foldl
    (fun st d =>
      { documents := upsertDocRow st.documents d
        embeddings := st.embeddings ++ embRowsOf d }) st

/-! ## IndexWriter, similarity-index side: `store_in_qdrant` (source
lines 888-952)

Point identifiers are `hash(doc.id) % 2**63` and
`hash(f"{doc.id}_chunk_{i}") % 2**63` — Python's built-in salted string
hash, a parameter of the process (`env.pyHash`); `%` on a positive
modulus agrees with `Int.emod`. -/

/-- Payload of a document-level point (lines 905-918). -/
structure QdrantDocPayload where
  case_name : List Char
  citation : List Char
  court : List Char
  court_level : List Char
  jurisdiction : List Char
  date_decided : List Char
  legal_areas : List (List Char)
  authority_weight : ℚ
  binding_jurisdictions : List (List Char)
  citations_count : Nat
  text_length : Nat
  chunk_count : Nat

/-- Payload of a chunk-level point (lines 929-938). -/
structure QdrantChunkPayload where
  parent_document_id : List Char
  chunk_index : Nat
  case_name : List Char
  court_level : List Char
  jurisdiction : List Char
  legal_areas : List (List Char)
  authority_weight : ℚ
  is_chunk : Bool

inductive PointPayload
  | doc : QdrantDocPayload → PointPayload
  | chunk : QdrantChunkPayload → PointPayload

structure QdrantPoint (α : Type) where
  id : Int
  vector : α
  payload : PointPayload

/-- The points built for one document (lines 897-940): skipped entirely
when `doc.embedding is None`; otherwise one document point followed by
one point per chunk embedding. -/
def pointsOf (env : PipelineEnv α) (doc : LegalDocument α) : List (QdrantPoint α) :=
  match doc.embedding with
  | none => []
  | some v =>
    { id := env.pyHash doc.id % (2 ^ 63)
      vector := v
      payload := .doc
        { case_name := doc.case_name
          citation := doc.citation
          court := doc.court
          court_level := doc.court_level
          jurisdiction := doc.jurisdiction
          date_decided := doc.date_decided
          legal_areas := doc.legal_areas
          authority_weight := doc.authority_weight
          binding_jurisdictions := doc.binding_jurisdictions
          citations_count := doc.citations_extracted.length
          text_length := doc.plain_text.length
          chunk_count := doc.chunk_embeddings.length } }
      :: doc.chunk_embeddings.enum.map fun ie =>
        { id := env.pyHash (doc.id ++ "_chunk_".toList ++ (Nat.repr ie.1).toList)
            % (2 ^ 63)
          vector := ie.2
          payload := .chunk
            { parent_document_id := doc.id
              chunk_index := ie.1
              case_name := doc.case_name
              court_level := doc.court_level
              jurisdiction := doc.jurisdiction
              legal_areas := doc.legal_areas
              authority_weight := doc.authority_weight
              is_chunk := true } }

/-- Embedding of `store_in_qdrant(legal_docs)`: the batch of points upserted into the
collection (the client-missing and upsert-failure branches only log). -/
def store_in_qdrant (env : PipelineEnv α) (legal_docs : List (LegalDocument α)) :
    List (QdrantPoint α) :=
  (legal_docs.map (pointsOf env)).flatten

/-- A concrete environment over unit vectors whose process hash is the
constant 0. -/
def env0 : PipelineEnv Unit :=
  { getText := fun t => t
    hasTok := false
    enc := fun _ => []
    dec := fun _ => []
    sentTok := sentTokId
    md5hex := fun t => t
    search := noSearch
    findall := noFindall
    embedBatch := fun _ => []
    meanVec := fun _ => ()
    pyHash := fun _ => 0 }

/-- A concrete document with an embedding present. -/
def docU : LegalDocument Unit :=
  { id := "abc".toList
    case_name := []
    citation := []
    court := []
    court_level := "unknown".toList
    jurisdiction := "unknown".toList
    date_decided := []
    full_text := "x".toList
    plain_text := "x".toList
    legal_areas := []
    authority_weight := 1/10
    binding_jurisdictions := []
    citations_extracted := []
    citations_validated := []
    embedding := some ()
    chunk_embeddings := []
    metadata := defaultMetadata }

/-! ## Batch checkpointing: `process_courtlistener_files` (source
lines 1008-1066)

The per-file loop (lines 1030-1053) is embedded for one file whose
successfully processed documents are the given list, abstracting the
format decoding and the thread pool (which affect only the order within
one 100-document batch, not the accumulated counts).  The checkpoint
test of line 1046 is `len(all_legal_docs) >= 1000`, re-checked after
every 100-document batch — not a multiple-of-1000 test. -/

structure RunAcc (α : Type) where
  all : List α
  flushes : List (List α)

/-- The slices `docs[i:i+100]` of the `for i in range(0, len(docs), 100)`
loop of line 1032 (batch_size = 100, line 1031). -/
def batches100 : List α → List (List α)
  | [] => []
  | x :: xs => ((x :: xs).take 100) :: batches100 ((x :: xs).drop 100)
termination_by l => l.length
decreasing_by
  simp only [List.length_drop, List.length_cons]
  omega

/-- One iteration of lines 1040-1053: append the batch's successes to
`all_legal_docs`; when the accumulated total has reached 1,000, store
the LAST 1,000 documents (`all_legal_docs[-1000:]`) in both stores —
one paired flush, recorded here as one entry of `flushes`. -/
def stepBatch (st : RunAcc α) (b : List α) : RunAcc α :=
  let all := st.all ++ b
  if 1000 ≤ all.length then
    { all := all, flushes := st.flushes ++ [all.drop (all.length - 1000)] }
  else { all := all, flushes := st.flushes }

/-- Embedding of `process_courtlistener_files` for one file: the batch loop, then the
end-of-run remainder flush of lines 1059-1064
(`all_legal_docs[-remaining:]` with `remaining = len % 1000`). -/
def process_courtlistener_files (docs : List α) : RunAcc α :=
  let st := (batches100 docs).foldl stepBatch ⟨[], []⟩
  if st.all.isEmpty then st
  else
    let remaining := st.all.length % 1000
    if 0 < remaining then
      { st with flushes := st.flushes ++ [st.all.drop (st.all.length - remaining)] }
    else st

/-- The flush-size schedule of the checkpoint loop, at the level of
batch lengths: starting from an accumulated count `acc`, each batch adds
its length and emits one 1,000-document flush whenever the running total
has reached 1,000. -/
def flushLens (acc : Nat) : List Nat → List Nat
  | [] => []
  | l :: ls => (if 1000 ≤ acc + l then [1000] else []) ++ flushLens (acc + l) ls

/-! ## Lemmas and claim theorems -/

/-! Basic lemmas about the string primitives. -/

theorem nonWS_nil : nonWS [] = [] := rfl

theorem nonWS_cons_of_space {c : Char} (h : pyIsSpace c = true) (cs : List Char) :
    nonWS (c :: cs) = nonWS cs := by
  simp [nonWS, List.filter_cons, h]

theorem nonWS_cons_of_not_space {c : Char} (h : pyIsSpace c = false) (cs : List Char) :
    nonWS (c :: cs) = c :: nonWS cs := by
  simp [nonWS, List.filter_cons, h]

theorem nonWS_append (s t : List Char) : nonWS (s ++ t) = nonWS s ++ nonWS t :=
  List.filter_append ..

theorem stripRight_length_le (s : List Char) : (stripRight s).length ≤ s.length := by
  induction s with
  | nil => simp [stripRight]
  | cons c cs ih =>
    simp only [stripRight]
    split
    · simp
    · simpa using ih

theorem pyStrip_length_le (s : List Char) : (pyStrip s).length ≤ s.length :=
  le_trans (stripRight_length_le _) (List.dropWhile_sublist _).length_le

theorem mem_stripRight {c : Char} {s : List Char} (h : c ∈ stripRight s) : c ∈ s := by
  induction s with
  | nil => simp [stripRight] at h
  | cons d cs ih =>
    simp only [stripRight] at h
    split at h
    · simp at h
    · rcases List.mem_cons.1 h with h | h
      · simp [h]
      · exact List.mem_cons_of_mem _ (ih h)

theorem mem_pyStrip {c : Char} {s : List Char} (h : c ∈ pyStrip s) : c ∈ s :=
  (List.dropWhile_sublist _).mem (mem_stripRight h)

theorem nonWS_cons_congr {c : Char} {cs ds : List Char} (h : nonWS cs = nonWS ds) :
    nonWS (c :: cs) = nonWS (c :: ds) := by
  by_cases hc : pyIsSpace c
  · rw [nonWS_cons_of_space hc, nonWS_cons_of_space hc, h]
  · rw [nonWS_cons_of_not_space (by simpa using hc),
      nonWS_cons_of_not_space (by simpa using hc), h]

theorem nonWS_stripRight (s : List Char) : nonWS (stripRight s) = nonWS s := by
  induction s with
  | nil => rfl
  | cons c cs ih =>
    simp only [stripRight]
    split
    · next h =>
      rcases Bool.and_eq_true .. ▸ h with ⟨h1, h2⟩
      have h1 : stripRight cs = [] := by simpa using h1
      have hcs : nonWS cs = [] := by rw [← ih, h1, nonWS_nil]
      rw [nonWS_nil, nonWS_cons_of_space h2, hcs]
    · exact nonWS_cons_congr ih

theorem nonWS_dropWhile (s : List Char) :
    nonWS (s.dropWhile pyIsSpace) = nonWS s := by
  induction s with
  | nil => rfl
  | cons c cs ih =>
    by_cases h : pyIsSpace c
    · rw [List.dropWhile_cons_of_pos (by simpa using h), ih, nonWS_cons_of_space h]
    · rw [List.dropWhile_cons_of_neg (by simpa using h)]

theorem nonWS_pyStrip (s : List Char) : nonWS (pyStrip s) = nonWS s := by
  rw [pyStrip, nonWS_stripRight, nonWS_dropWhile]

theorem nonWS_eq_nil_of_pyStrip_eq_nil {s : List Char} (h : pyStrip s = []) :
    nonWS s = [] := by
  rw [← nonWS_pyStrip, h, nonWS_nil]

theorem splitOnNN_ne_nil (s : List Char) : splitOnNN s ≠ [] := by
  match s with
  | [] => simp [splitOnNN]
  | [c] => simp [splitOnNN]
  | c :: d :: rest =>
    simp only [splitOnNN]
    split <;> simp

/-- Joining the pieces of `splitOnNN` with the separator recovers the text. -/
theorem splitOnNN_join (s : List Char) :
    (List.intersperse ['\n', '\n'] (splitOnNN s)).flatten = s := by
  induction s using splitOnNN.induct with
  | case1 => rfl
  | case2 c => rfl
  | case3 c d rest h ih =>
    rcases Bool.and_eq_true .. ▸ h with ⟨h1, h2⟩
    have hc : c = '\n' := by simpa using h1
    have hd : d = '\n' := by simpa using h2
    subst hc; subst hd
    simp only [splitOnNN, h, if_true]
    rcases List.exists_cons_of_ne_nil (splitOnNN_ne_nil rest) with ⟨p, ps, hr⟩
    rw [hr] at ih ⊢
    simpa [List.intersperse] using ih
  | case4 c d rest h ih =>
    simp only [splitOnNN, h, if_false]
    rcases List.exists_cons_of_ne_nil (splitOnNN_ne_nil (d :: rest)) with ⟨p, ps, hr⟩
    rw [hr] at ih ⊢
    cases ps with
    | nil => simpa [List.intersperse] using ih
    | cons q qs =>
      simp only [List.intersperse, List.flatten_cons, List.headD, List.tail] at ih ⊢
      rw [← ih]
      simp

theorem nonWS_flatten_intersperse (ps : List (List Char)) :
    nonWS ((List.intersperse ['\n', '\n'] ps).flatten) = (ps.map nonWS).flatten := by
  induction ps with
  | nil => rfl
  | cons p ps ih =>
    cases ps with
    | nil => simp [List.intersperse]
    | cons q qs =>
      simp only [List.intersperse, List.flatten_cons, List.map_cons] at ih ⊢
      rw [nonWS_append, nonWS_append]
      have hsep : nonWS ['\n', '\n'] = [] := rfl
      rw [hsep, ih]
      simp

/-- The non-whitespace content of the paragraphs, concatenated, is the
non-whitespace content of the text (the separators are whitespace). -/
theorem nonWS_splitOnNN (s : List Char) :
    ((splitOnNN s).map nonWS).flatten = nonWS s := by
  conv_rhs => rw [← splitOnNN_join s]
  rw [nonWS_flatten_intersperse]

theorem nonWS_flatten (l : List (List Char)) :
    nonWS l.flatten = (l.map nonWS).flatten := by
  induction l with
  | nil => rfl
  | cons p ps ih => simp [nonWS_append, ih]

theorem stripRight_idem (s : List Char) : stripRight (stripRight s) = stripRight s := by
  induction s with
  | nil => rfl
  | cons c cs ih =>
    simp only [stripRight]
    split
    · rfl
    · next h => simp [stripRight, ih, h]

theorem stripRight_head? {c : Char} {s : List Char}
    (h : (stripRight s).head? = some c) : s.head? = some c := by
  cases s with
  | nil => simp [stripRight] at h
  | cons d ds =>
    simp only [stripRight] at h
    split at h
    · simp at h
    · simpa using h

theorem head?_dropWhile_not {p : Char → Bool} {c : Char} :
    ∀ {l : List Char}, (l.dropWhile p).head? = some c → p c = false := by
  intro l
  induction l with
  | nil => intro h; simp at h
  | cons d ds ih =>
    intro h
    by_cases hd : p d
    · rw [List.dropWhile_cons_of_pos hd] at h
      exact ih h
    · rw [List.dropWhile_cons_of_neg hd] at h
      simp only [List.head?_cons, Option.some.injEq] at h
      rw [← h]
      simpa using hd

theorem dropWhile_eq_self_of_head {p : Char → Bool} {l : List Char}
    (h : ∀ c, l.head? = some c → p c = false) : l.dropWhile p = l := by
  cases l with
  | nil => rfl
  | cons d ds =>
    have := h d (by simp)
    rw [List.dropWhile_cons_of_neg (by simp [this])]

theorem pyStrip_idem (s : List Char) : pyStrip (pyStrip s) = pyStrip s := by
  unfold pyStrip
  have hdw : (stripRight (s.dropWhile pyIsSpace)).dropWhile pyIsSpace
      = stripRight (s.dropWhile pyIsSpace) := by
    apply dropWhile_eq_self_of_head
    intro c hc
    exact head?_dropWhile_not (stripRight_head? hc)
  rw [hdw, stripRight_idem]

/-! Content preservation of the chunker (claim C3). -/

theorem sentLoop_nonWS (maxSize : Nat) (ss : List (List Char)) :
    ∀ st : ChunkState,
      nonWS (sentLoop maxSize st ss).chunks.flatten
          ++ nonWS (sentLoop maxSize st ss).current
        = nonWS st.chunks.flatten ++ nonWS st.current ++ nonWS ss.flatten := by
  induction ss with
  | nil => intro st; simp [sentLoop, nonWS_nil]
  | cons s ss ih =>
    intro st
    have hsp : pyIsSpace ' ' = true := by decide
    simp only [sentLoop]
    rw [ih]
    split
    · split
      · simp [nonWS_append, nonWS_pyStrip, List.flatten_append, List.flatten_cons,
          List.append_assoc]
      · next hcur =>
        have hcur : st.current = [] := by simpa using hcur
        simp [nonWS_append, List.flatten_append, List.flatten_cons, List.append_assoc,
          hcur, nonWS_nil]
    · simp [nonWS_append, nonWS_cons_of_space hsp, List.flatten_cons, List.append_assoc]

theorem paraLoop_nonWS (sentTok : List Char → List (List Char))
    (hTok : ∀ p, nonWS (sentTok p).flatten = nonWS p)
    (maxSize : Nat) (ps : List (List Char)) :
    ∀ st : ChunkState,
      nonWS (paraLoop sentTok maxSize st ps).chunks.flatten
          ++ nonWS (paraLoop sentTok maxSize st ps).current
        = nonWS st.chunks.flatten ++ nonWS st.current ++ nonWS ps.flatten := by
  induction ps with
  | nil => intro st; simp [paraLoop, nonWS_nil]
  | cons p0 ps ih =>
    intro st
    have hnl : pyIsSpace '\n' = true := by decide
    simp only [paraLoop]
    rw [ih]
    split
    · next hskip =>
      have : nonWS p0 = [] := nonWS_eq_nil_of_pyStrip_eq_nil hskip
      simp [nonWS_append, List.flatten_cons, this]
    · split
      · split
        · simp [nonWS_append, nonWS_pyStrip, List.flatten_append, List.flatten_cons,
            List.append_assoc]
        · rw [sentLoop_nonWS, hTok, nonWS_pyStrip]
          simp [nonWS_append, List.flatten_cons, List.append_assoc]
      · simp [nonWS_append, nonWS_cons_of_space hnl, nonWS_pyStrip,
          List.flatten_cons, List.append_assoc]

/-- Claim C3 (confirmed).  For every text and every chunk-size limit,
concatenating the chunks produced by `chunk_legal_document`, in output
order, preserves the input's non-whitespace content exactly — nothing
lost, nothing duplicated, order kept — provided the external sentence
tokenizer itself preserves non-whitespace content. -/
theorem chunk_concat_preserves_content
    (sentTok : List Char → List (List Char))
    (hTok : ∀ p, nonWS (sentTok p).flatten = nonWS p)
    (text : List Char) (max_chunk_size : Nat) :
    nonWS (chunk_legal_document sentTok text max_chunk_size).flatten = nonWS text := by
  unfold chunk_legal_document finalFlush
  have h := paraLoop_nonWS sentTok hTok max_chunk_size (splitOnNN text) ⟨[], []⟩
  have hsplit : nonWS (splitOnNN text).flatten = nonWS text := by
    rw [nonWS_flatten, nonWS_splitOnNN]
  simp only [List.flatten_nil, nonWS_nil, List.nil_append] at h
  split
  · rw [List.flatten_append, nonWS_append]
    simp only [List.flatten_cons, List.flatten_nil, List.append_nil]
    rw [nonWS_pyStrip, h, hsplit]
  · next hcur =>
    have hcur : (paraLoop sentTok max_chunk_size ⟨[], []⟩ (splitOnNN text)).current = [] := by
      simpa using hcur
    rw [hcur, nonWS_nil, List.append_nil] at h
    rw [h, hsplit]

theorem ChunkOk_of_CurOk {sentTok paras maxSize cur}
    (h : CurOk sentTok paras maxSize cur) :
    ChunkOk sentTok paras maxSize (pyStrip cur) := by
  rcases h with h | ⟨p, hp, hcur⟩ | ⟨p, hp, s, hs, hcur⟩
  · exact Or.inl (le_trans (pyStrip_length_le _) h)
  · rw [hcur]; exact Or.inr (Or.inl ⟨p, hp, pyStrip_idem p⟩)
  · rw [hcur]; exact Or.inr (Or.inr ⟨p, hp, s, hs, Or.inr rfl⟩)

theorem sentLoop_ok (sentTok : List Char → List (List Char))
    (paras : List (List Char)) (maxSize : Nat) (ss : List (List Char)) :
    ∀ st : ChunkState,
      (∀ s ∈ ss, ∃ p ∈ paras, s ∈ sentTok (pyStrip p)) →
      (∀ c ∈ st.chunks, ChunkOk sentTok paras maxSize c) →
      CurOk sentTok paras maxSize st.current →
      (∀ c ∈ (sentLoop maxSize st ss).chunks, ChunkOk sentTok paras maxSize c)
        ∧ CurOk sentTok paras maxSize (sentLoop maxSize st ss).current := by
  induction ss with
  | nil => intro st _ h1 h2; exact ⟨h1, h2⟩
  | cons s ss ih =>
    intro st hss h1 h2
    simp only [sentLoop]
    apply ih
    · intro t ht; exact hss t (List.mem_cons_of_mem _ ht)
    · split
      · split
        · intro c hc
          rcases List.mem_append.1 hc with hc | hc
          · exact h1 c hc
          · rw [List.mem_singleton.1 hc]
            exact ChunkOk_of_CurOk h2
        · intro c hc
          rcases List.mem_append.1 hc with hc | hc
          · exact h1 c hc
          · rw [List.mem_singleton.1 hc]
            rcases hss s (List.mem_cons_self ..) with ⟨p, hp, hsp⟩
            exact Or.inr (Or.inr ⟨p, hp, s, hsp, Or.inl rfl⟩)
      · exact h1
    · split
      · split
        · rcases hss s (List.mem_cons_self ..) with ⟨p, hp, hsp⟩
          exact Or.inr (Or.inr ⟨p, hp, s, hsp, rfl⟩)
        · exact h2
      · next hfit =>
        refine Or.inl ?_
        have hfit : st.current.length + s.length ≤ maxSize := Nat.le_of_not_lt hfit
        simp only [List.length_append, List.length_cons]
        omega

theorem paraLoop_ok (sentTok : List Char → List (List Char))
    (paras : List (List Char)) (maxSize : Nat) (ps : List (List Char)) :
    ∀ st : ChunkState,
      (∀ p ∈ ps, p ∈ paras) →
      (∀ c ∈ st.chunks, ChunkOk sentTok paras maxSize c) →
      CurOk sentTok paras maxSize st.current →
      (∀ c ∈ (paraLoop sentTok maxSize st ps).chunks, ChunkOk sentTok paras maxSize c)
        ∧ CurOk sentTok paras maxSize (paraLoop sentTok maxSize st ps).current := by
  induction ps with
  | nil => intro st _ h1 h2; exact ⟨h1, h2⟩
  | cons p0 ps ih =>
    intro st hps h1 h2
    have hp0 : p0 ∈ paras := hps p0 (List.mem_cons_self ..)
    simp only [paraLoop]
    apply ih
    · intro q hq; exact hps q (List.mem_cons_of_mem _ hq)
    · split
      · exact h1
      · split
        · split
          · intro c hc
            rcases List.mem_append.1 hc with hc | hc
            · exact h1 c hc
            · rw [List.mem_singleton.1 hc]
              exact ChunkOk_of_CurOk h2
          · exact (sentLoop_ok sentTok paras maxSize (sentTok (pyStrip p0)) st
              (fun s hs => ⟨p0, hp0, hs⟩) h1 h2).1
        · exact h1
    · split
      · exact h2
      · split
        · split
          · exact Or.inr (Or.inl ⟨p0, hp0, rfl⟩)
          · exact (sentLoop_ok sentTok paras maxSize (sentTok (pyStrip p0)) st
              (fun s hs => ⟨p0, hp0, hs⟩) h1 h2).2
        · next hfit =>
          refine Or.inl ?_
          have hfit : st.current.length + (pyStrip p0).length ≤ maxSize :=
            Nat.le_of_not_lt hfit
          simp only [List.length_append, List.length_cons]
          omega

/-- Claim C1 (corrected).  Every chunk produced by `chunk_legal_document`
has length at most `max_chunk_size + 2` (the two blank-line separator
characters are not counted by the overflow test), or else it is a single
paragraph of the input, emitted whole, or a single sentence of a
paragraph (possibly stripped).  In particular a chunk longer than the
limit need not be a single indivisible sentence: it can be a whole
multi-sentence paragraph, or two paragraphs totalling `max + 2`. -/
theorem chunk_size_bound_amended (sentTok : List Char → List (List Char))
    (text : List Char) (max_chunk_size : Nat) :
    ∀ c ∈ chunk_legal_document sentTok text max_chunk_size,
      c.length ≤ max_chunk_size + 2
        ∨ (∃ p ∈ splitOnNN text, c = pyStrip p)
        ∨ (∃ p ∈ splitOnNN text, ∃ s ∈ sentTok (pyStrip p), c = s ∨ c = pyStrip s) := by
  intro c hc
  have h := paraLoop_ok sentTok (splitOnNN text) max_chunk_size (splitOnNN text)
    ⟨[], []⟩ (fun p hp => hp) (by intro c hc; simp at hc) (Or.inl (by simp))
  unfold chunk_legal_document finalFlush at hc
  split at hc
  · rcases List.mem_append.1 hc with hc | hc
    · exact h.1 c hc
    · rw [List.mem_singleton.1 hc]
      exact ChunkOk_of_CurOk h.2
  · exact h.1 c hc

/-- Claim C1 counterexample.  With `max_chunk_size = 5`:
(a) on `"cccc\n\ndd\n\naaa"` the chunker emits `"dd\n\naaa"`, a chunk of
length 7 > 5 that is two paragraphs joined — not a single indivisible
sentence (under the tokenizer every sentence is a whole paragraph, and
the chunk equals no paragraph and no sentence);
(b) on `"aa\n\nbbbb.cccc"` the paragraph `"bbbb.cccc"` alone exceeds the
limit yet is emitted whole as one oversized chunk — it is not split at
sentence level, although the tokenizer splits it into two sentences —
because the running buffer was non-empty when it arrived. -/
theorem chunk_size_bound_counterexample :
    (chunk_legal_document sentTokId "cccc\n\ndd\n\naaa".toList 5
        = ["cccc".toList, "dd\n\naaa".toList])
    ∧ ("dd\n\naaa".toList).length = 7
    ∧ ((splitOnNN "cccc\n\ndd\n\naaa".toList).all fun p =>
        decide (pyStrip p ≠ "dd\n\naaa".toList)
          && (sentTokId (pyStrip p)).all fun s =>
            decide (s ≠ "dd\n\naaa".toList) && decide (pyStrip s ≠ "dd\n\naaa".toList))
        = true
    ∧ (chunk_legal_document sentTokPeriod "aa\n\nbbbb.cccc".toList 5
        = ["aa".toList, "bbbb.cccc".toList])
    ∧ sentTokPeriod "bbbb.cccc".toList = ["bbbb".toList, "cccc".toList] := by
  refine ⟨by decide, by decide, by decide, by decide, by decide⟩

/-- Claim C1 witness for the amended bound, at a concrete chunk of a
concrete input. -/
theorem chunk_size_bound_amended_witness :
    ("ab".toList).length ≤ 5 + 2
      ∨ (∃ p ∈ splitOnNN "ab".toList, "ab".toList = pyStrip p)
      ∨ (∃ p ∈ splitOnNN "ab".toList, ∃ s ∈ sentTokId (pyStrip p),
          "ab".toList = s ∨ "ab".toList = pyStrip s) :=
  chunk_size_bound_amended sentTokId "ab".toList 5 "ab".toList (by decide)

theorem isPrefixOf_append_self (m b : List Char) : m.isPrefixOf (m ++ b) = true := by
  induction m with
  | nil => cases b <;> simp [List.isPrefixOf]
  | cons c cs ih => simp [List.isPrefixOf, ih]

theorem infixOfList_append_middle (m a b : List Char) :
    infixOfList m (a ++ m ++ b) = true := by
  induction a with
  | nil =>
    rw [List.nil_append]
    cases h : m ++ b with
    | nil =>
      rcases List.append_eq_nil.1 h with ⟨h1, _⟩
      subst h1
      rfl
    | cons c rest =>
      rw [infixOfList, ← h, isPrefixOf_append_self, Bool.true_or]
  | cons x a ih =>
    rw [List.cons_append, List.cons_append, infixOfList, ih, Bool.or_true]

/-- Claim C6 counterexample.  The input `"supreme"` contains the word
`"supreme"`, yet `extract_legal_metadata` classifies it as `unknown`
with authority weight 0.1: the supreme rule fires only on the substrings
`"supreme court"` or `"scotus"`. -/
theorem supreme_classification_counterexample :
    (extract_legal_metadata noSearch noFindall "supreme".toList).court_level
        = "unknown".toList
    ∧ (extract_legal_metadata noSearch noFindall "supreme".toList).authority_weight
        = 1/10
    ∧ containsSub "supreme" (lowerStr "supreme".toList) = true := by
  refine ⟨by decide, by rfl, by decide⟩

/-- Claim C6 (corrected).  For every input text whose lowercasing
contains `"supreme court"` or `"scotus"`, classification returns
`court_level = "supreme"` and `authority_weight = 1.0`. -/
theorem supreme_court_classification_amended
    (search : List Char → List Char → Bool)
    (findall : List Char → List Char → List (List Char)) (text : List Char)
    (h : containsSub "supreme court" (lowerStr text) = true
        ∨ containsSub "scotus" (lowerStr text) = true) :
    (extract_legal_metadata search findall text).court_level = "supreme".toList
      ∧ (extract_legal_metadata search findall text).authority_weight = 1 := by
  have htext : text ≠ [] := by
    rintro rfl
    rcases h with h | h <;> revert h <;> decide
  have hcond : (containsSub "supreme court" (lowerStr text)
      || containsSub "scotus" (lowerStr text)) = true := by
    rcases h with h | h <;> simp [h]
  rw [extract_legal_metadata, if_neg htext]
  constructor
  · show court_level_of (lowerStr text) = "supreme".toList
    rw [court_level_of, if_pos hcond]
  · show court_hierarchy (court_level_of (lowerStr text)) = 1
    rw [court_level_of, if_pos hcond]
    rfl

/-- Claim C6 witness: the amended theorem at the concrete court name
`"U.S. Supreme Court"`. -/
theorem supreme_court_classification_amended_witness :
    (extract_legal_metadata noSearch noFindall "U.S. Supreme Court".toList).court_level
        = "supreme".toList
      ∧ (extract_legal_metadata noSearch noFindall
          "U.S. Supreme Court".toList).authority_weight = 1 :=
  supreme_court_classification_amended noSearch noFindall "U.S. Supreme Court".toList
    (Or.inl (by decide))

/-- Claim C8 (amended part).  The budgeter is the identity when no
tokenizer is available and when the token count is within the 32,000
budget; over budget, the output is the decode of the first third and the
last third of the budget in tokens, with the middle dropped and the
literal marker `"\n\n[... CONTENT TRUNCATED FOR DEEPSEEK R1
OPTIMIZATION ...]\n\n"` spliced at the length of the decoded head. -/
theorem budgeter_amended (enc : List Char → List Nat) (dec : List Nat → List Char)
    (text : List Char) :
    optimize_for_deepseek_r1 false enc dec text = text
    ∧ ((enc text).length ≤ 32000 → optimize_for_deepseek_r1 true enc dec text = text)
    ∧ (32000 < (enc text).length →
        infixOfList truncationMarker (optimize_for_deepseek_r1 true enc dec text) = true
        ∧ ∃ a b : List Char,
            optimize_for_deepseek_r1 true enc dec text = a ++ truncationMarker ++ b
            ∧ a ++ b = dec ((enc text).take (32000 / 3)
                ++ (enc text).drop ((enc text).length - 32000 / 3))
            ∧ a.length = min ((dec ((enc text).take (32000 / 3))).length)
                ((dec ((enc text).take (32000 / 3)
                  ++ (enc text).drop ((enc text).length - 32000 / 3))).length)) := by
  refine ⟨by simp [optimize_for_deepseek_r1], fun h => ?_, fun h => ?_⟩
  · simp only [optimize_for_deepseek_r1, Bool.not_true, Bool.false_eq_true, if_false]
    rw [if_pos h]
  · have hlen : ¬ ((enc text).length ≤ 32000) := Nat.not_le_of_lt h
    simp only [optimize_for_deepseek_r1, Bool.not_true, Bool.false_eq_true, if_false]
    rw [if_neg hlen]
    constructor
    · exact infixOfList_append_middle ..
    · refine ⟨_, _, rfl, List.take_append_drop .., List.length_take ..⟩

/-- Claim C8 counterexample.  Over budget, the emitted marker is
`"\n\n[... CONTENT TRUNCATED FOR DEEPSEEK R1 OPTIMIZATION ...]\n\n"`;
the literal `"...CONTENT TRUNCATED..."` asserted by the claim (no space
between the dots and the words) does not occur in the output. -/
theorem budgeter_marker_counterexample :
    optimize_for_deepseek_r1 true encBig decCount "y".toList = truncationMarker ++ ['X']
    ∧ infixOfList claimedMarker (optimize_for_deepseek_r1 true encBig decCount "y".toList)
        = false
    ∧ 32000 < (encBig "y".toList).length := by
  have henc : encBig "y".toList = List.replicate 32001 0 := rfl
  have hlen : (encBig "y".toList).length = 32001 := by rw [henc, List.length_replicate]
  have hout : optimize_for_deepseek_r1 true encBig decCount "y".toList
      = truncationMarker ++ ['X'] := by
    simp only [optimize_for_deepseek_r1, Bool.not_true, Bool.false_eq_true, if_false, henc,
      List.length_replicate, List.take_replicate, List.drop_replicate]
    norm_num
    rw [show decCount (List.replicate 10666 0) = [] from by
        simp only [decCount, List.length_replicate]; norm_num,
      show decCount (List.replicate 21332 0) = ['X'] from by
        simp only [decCount, List.length_replicate]
        exact if_pos trivial]
    simp
  refine ⟨hout, ?_, by rw [hlen]; omega⟩
  rw [hout]
  decide

/-- Claim C8 witness for the amended statement: the truncation branch at
the concrete tokenizer `encBig`/`decCount`, the budget hypothesis
discharged there. -/
theorem budgeter_amended_witness :
    infixOfList truncationMarker
      (optimize_for_deepseek_r1 true encBig decCount "y".toList) = true :=
  ((budgeter_amended encBig decCount "y".toList).2.2
    (by rw [show (encBig "y".toList).length = 32001 from
        by rw [show encBig "y".toList = List.replicate 32001 0 from rfl,
          List.length_replicate]]; omega)).1

theorem collapseAux_wsNormalAux (s : List Char) :
    ∀ b, wsNormalAux b (collapseAux b s) = true := by
  induction s with
  | nil => intro b; rfl
  | cons c cs ih =>
    intro b
    by_cases hc : pyIsSpace c
    · cases b with
      | true => simp only [collapseAux, hc, if_true]; exact ih true
      | false =>
        simp only [collapseAux, hc, if_true, Bool.false_eq_true, if_false, wsNormalAux]
        have : pyIsSpace ' ' = true := by decide
        simp [this, ih true]
    · simp only [collapseAux, hc, Bool.false_eq_true, if_false, wsNormalAux]
      simp [hc, ih false]

theorem collapseAux_eq_self (s : List Char) :
    ∀ b, wsNormalAux b s = true → collapseAux b s = s := by
  induction s with
  | nil => intro b _; rfl
  | cons c cs ih =>
    intro b h
    by_cases hc : pyIsSpace c
    · simp only [wsNormalAux, hc, if_true, Bool.and_eq_true, Bool.not_eq_eq_eq_not,
        Bool.not_true, decide_eq_true_eq] at h
      rcases h with ⟨⟨hc', hb⟩, hcs⟩
      subst hb
      simp only [collapseAux, hc, if_true, Bool.false_eq_true, if_false]
      rw [ih true hcs, hc']
    · simp only [wsNormalAux, hc, Bool.false_eq_true, if_false] at h
      simp only [collapseAux, hc, Bool.false_eq_true, if_false]
      rw [ih false h]

theorem wsNormalAux_weaken {s : List Char} (h : wsNormalAux true s = true) :
    wsNormalAux false s = true := by
  cases s with
  | nil => rfl
  | cons c cs =>
    by_cases hc : pyIsSpace c
    · simp [wsNormalAux, hc] at h
    · simpa [wsNormalAux, hc] using h

theorem dropWhile_of_wsNormalAux_true {s : List Char} (h : wsNormalAux true s = true) :
    s.dropWhile pyIsSpace = s := by
  cases s with
  | nil => rfl
  | cons c cs =>
    by_cases hc : pyIsSpace c
    · simp [wsNormalAux, hc] at h
    · rw [List.dropWhile_cons_of_neg (by simpa using hc)]

theorem wsNormalAux_dropWhile {s : List Char} :
    ∀ {b}, wsNormalAux b s = true → wsNormalAux true (s.dropWhile pyIsSpace) = true := by
  induction s with
  | nil => intro b _; rfl
  | cons c cs ih =>
    intro b h
    by_cases hc : pyIsSpace c
    · simp only [wsNormalAux, hc, if_true, Bool.and_eq_true, Bool.not_eq_eq_eq_not,
        Bool.not_true, decide_eq_true_eq] at h
      rcases h with ⟨⟨_, hb⟩, hcs⟩
      rw [List.dropWhile_cons_of_pos (by simpa using hc),
        dropWhile_of_wsNormalAux_true hcs]
      exact hcs
    · rw [List.dropWhile_cons_of_neg (by simpa using hc)]
      simpa [wsNormalAux, hc] using h

theorem wsNormalAux_stripRight (s : List Char) :
    ∀ b, wsNormalAux b s = true → wsNormalAux b (stripRight s) = true := by
  induction s with
  | nil => intro b _; rfl
  | cons c cs ih =>
    intro b h
    simp only [stripRight]
    split
    · rfl
    · by_cases hc : pyIsSpace c
      · simp only [wsNormalAux, hc, if_true, Bool.and_eq_true, Bool.not_eq_eq_eq_not,
          Bool.not_true, decide_eq_true_eq] at h
        rcases h with ⟨⟨hc', hb⟩, hcs⟩
        subst hb
        simp only [wsNormalAux, hc, if_true]
        simp [hc', ih true hcs]
      · simp only [wsNormalAux, hc, Bool.false_eq_true, if_false] at h ⊢
        exact ih false h

theorem wsNormalAux_pyStrip {s : List Char} (h : wsNormalAux false s = true) :
    wsNormalAux false (pyStrip s) = true :=
  wsNormalAux_weaken
    (wsNormalAux_stripRight _ true (wsNormalAux_dropWhile h))

theorem mem_collapseAux {c : Char} :
    ∀ {s : List Char} {b}, c ∈ collapseAux b s → c = ' ' ∨ c ∈ s := by
  intro s
  induction s with
  | nil => intro b h; simp [collapseAux] at h
  | cons d ds ih =>
    intro b h
    by_cases hd : pyIsSpace d
    · cases b with
      | true =>
        simp only [collapseAux, hd, if_true] at h
        rcases ih h with h | h
        · exact Or.inl h
        · exact Or.inr (List.mem_cons_of_mem _ h)
      | false =>
        simp only [collapseAux, hd, if_true, Bool.false_eq_true, if_false] at h
        rcases List.mem_cons.1 h with h | h
        · exact Or.inl h
        · rcases ih h with h | h
          · exact Or.inl h
          · exact Or.inr (List.mem_cons_of_mem _ h)
    · simp only [collapseAux, hd, Bool.false_eq_true, if_false] at h
      rcases List.mem_cons.1 h with h | h
      · exact Or.inr (h ▸ List.mem_cons_self ..)
      · rcases ih h with h | h
        · exact Or.inl h
        · exact Or.inr (List.mem_cons_of_mem _ h)

theorem map_eq_self_of_mem {f : Char → Char} :
    ∀ {l : List Char}, (∀ c ∈ l, f c = c) → l.map f = l := by
  intro l
  induction l with
  | nil => intro _; rfl
  | cons c cs ih =>
    intro h
    rw [List.map_cons, h c (List.mem_cons_self ..), ih fun d hd => h d (List.mem_cons_of_mem _ hd)]

theorem allowedChar_step2 (c : Char) : allowedChar (step2 c) = true := by
  unfold step2
  split
  · assumption
  · decide

theorem ne_of_allowed_of_not {c : Char} (d : Char) (hd : allowedChar d = false)
    (h : allowedChar c = true) : c ≠ d := by
  intro hc; rw [hc, hd] at h; cases h

theorem step1_of_allowed {c : Char} (h : allowedChar c = true) : step1 c = c := by
  unfold step1
  rw [if_neg (ne_of_allowed_of_not '[' (by decide) h),
    if_neg (ne_of_allowed_of_not ']' (by decide) h),
    if_neg (ne_of_allowed_of_not '\x7b' (by decide) h),
    if_neg (ne_of_allowed_of_not '\x7d' (by decide) h),
    if_neg (ne_of_allowed_of_not '\\' (by decide) h),
    if_neg (ne_of_allowed_of_not '|' (by decide) h),
    if_neg (ne_of_allowed_of_not '^' (by decide) h),
    if_neg (ne_of_allowed_of_not '$' (by decide) h),
    if_neg (ne_of_allowed_of_not '*' (by decide) h),
    if_neg (ne_of_allowed_of_not '+' (by decide) h),
    if_neg (ne_of_allowed_of_not '?' (by decide) h)]

theorem step2_of_allowed {c : Char} (h : allowedChar c = true) : step2 c = c := by
  unfold step2
  rw [if_pos h]

theorem sanitize_mem_allowed {text : List Char} {c : Char}
    (hc : c ∈ sanitize_text_input text) : allowedChar c = true := by
  unfold sanitize_text_input at hc
  split at hc
  · simp at hc
  · have h1 := mem_collapseAux (mem_pyStrip hc)
    rcases h1 with h1 | h1
    · rw [h1]; decide
    · rcases List.mem_map.1 h1 with ⟨d, _, hd⟩
      rw [← hd]
      exact allowedChar_step2 d

/-- Claim C9 (confirmed).  Every character of `sanitize_text_input`'s
output lies in the explicit allow-list (ASCII word characters,
whitespace, and the fixed punctuation set), and the sanitizer is
idempotent. -/
theorem sanitize_allowlist_and_idempotent (text : List Char) :
    (sanitize_text_input text).all allowedChar = true
      ∧ sanitize_text_input (sanitize_text_input text) = sanitize_text_input text := by
  constructor
  · exact List.all_eq_true.2 fun c hc => sanitize_mem_allowed hc
  · by_cases hout : sanitize_text_input text = []
    · rw [hout]
      rfl
    · have hall : ∀ c ∈ sanitize_text_input text, allowedChar c = true :=
        fun c hc => sanitize_mem_allowed hc
      have hmap1 : (sanitize_text_input text).map step1 = sanitize_text_input text :=
        map_eq_self_of_mem fun c hc => step1_of_allowed (hall c hc)
      have hmap2 : (sanitize_text_input text).map step2 = sanitize_text_input text :=
        map_eq_self_of_mem fun c hc => step2_of_allowed (hall c hc)
      have hshape : sanitize_text_input text
          = pyStrip (collapseWS ((text.map step1).map step2)) := by
        unfold sanitize_text_input
        split
        · next h => exact absurd (by rw [sanitize_text_input, if_pos h]) hout
        · rfl
      have hnorm : wsNormalAux false (sanitize_text_input text) = true := by
        rw [hshape]
        exact wsNormalAux_pyStrip (collapseAux_wsNormalAux _ false)
      have hcoll : collapseWS (sanitize_text_input text) = sanitize_text_input text :=
        collapseAux_eq_self _ false hnorm
      have hstrip : pyStrip (sanitize_text_input text) = sanitize_text_input text := by
        rw [hshape, pyStrip_idem]
      conv_lhs => rw [sanitize_text_input, if_neg hout, hmap1, hmap2, hcoll, hstrip]

/-- Every call of `process_legal_document` returns `None`: for empty
text by the guard of line 752, and for non-empty text because
`clean_text` (line 755) raises `re.error` on its invalid quote pattern,
caught at line 809.  Shared helper for the claims touching the
per-document path. -/
theorem process_legal_document_eq_none (env : PipelineEnv α) (r : RawRecord) :
    process_legal_document env r = none := by
  simp only [process_legal_document]
  split
  · rfl
  · next h =>
    rw [clean_text, if_neg h]

/-- Claim C7 (code bug).  The converter writes `authority_weight: 0.5`
into the raw record, but `process_legal_document` never reads that key —
and in the program as written it produces no document at all (the
`clean_text` regex raise).  The weight classification of the generated
sentence, which is what the pipeline would store once `clean_text` is
fixed, is 0.1, not 0.5. -/
theorem citation_row_weight_divergence (env : PipelineEnv α) :
    process_legal_document env (convert_citation_row_to_document citationRow0) = none
    ∧ (convert_citation_row_to_document citationRow0).authority_weight = some (1/2)
    ∧ (extract_legal_metadata env.search env.findall
        "This citation links opinion 2 to 3.".toList).authority_weight = 1/10 := by
  refine ⟨process_legal_document_eq_none env _, by rfl, by rfl⟩

/-- Claim C4 (code bug).  `process_legal_document` assigns no document
id to any record whatsoever: the quote-normalization regex in
`clean_text` is invalid, every per-document call raises and returns
`None`, and nothing ever reaches the `documents` table. -/
theorem process_never_assigns_document_id (env : PipelineEnv α) (r : RawRecord) :
    process_legal_document env r = none :=
  process_legal_document_eq_none env r

theorem store_in_sqlite_embeddings (docs : List (LegalDocument α)) :
    ∀ st : SqliteState α,
      (store_in_sqlite st docs).embeddings
        = st.embeddings ++ (docs.map embRowsOf).flatten := by
  induction docs with
  | nil => intro st; simp [store_in_sqlite]
  | cons d ds ih =>
    intro st
    simp only [store_in_sqlite, List.foldl_cons] at ih ⊢
    rw [ih, List.map_cons, List.flatten_cons, List.append_assoc]

/-- Claim C10 (confirmed).  Every `embeddings`-table row written by
`store_in_sqlite` has `chunk_text = "Chunk " ++ <chunk index>` — the
placeholder, never the chunk's text (which the `LegalDocument` does not
even carry). -/
theorem embeddings_rows_hold_placeholder (st : SqliteState α)
    (docs : List (LegalDocument α)) :
    (store_in_sqlite st docs).embeddings = st.embeddings ++ (docs.map embRowsOf).flatten
    ∧ ((docs.map embRowsOf).flatten.all fun r =>
        r.chunk_text == "Chunk ".toList ++ (Nat.repr r.chunk_id).toList) = true := by
  refine ⟨store_in_sqlite_embeddings docs st, List.all_eq_true.2 ?_⟩
  intro r hr
  rcases List.mem_flatten.1 hr with ⟨rows, hrows, hrmem⟩
  rcases List.mem_map.1 hrows with ⟨d, _, hd⟩
  rw [← hd] at hrmem
  rcases List.mem_map.1 hrmem with ⟨ie, _, hie⟩
  rw [← hie]
  exact beq_self_eq_true _

theorem batches100_nil : batches100 ([] : List α) = [] := by
  simp [batches100]

theorem batches100_cons (x : α) (xs : List α) :
    batches100 (x :: xs) = ((x :: xs).take 100) :: batches100 ((x :: xs).drop 100) := by
  simp [batches100]

theorem batches100_replicate (k : Nat) :
    batches100 (List.replicate (100 * k) ()) = List.replicate k (List.replicate 100 ()) := by
  induction k with
  | zero => simp [batches100_nil]
  | succ k ih =>
    have h1 : 100 * (k + 1) = (99 + 100 * k) + 1 := by omega
    rw [h1, List.replicate_succ, batches100_cons, ← List.replicate_succ]
    have h2 : (99 + 100 * k) + 1 = 100 + 100 * k := by omega
    rw [h2, List.take_replicate, List.drop_replicate]
    have h3 : min 100 (100 + 100 * k) = 100 := by omega
    have h4 : 100 + 100 * k - 100 = 100 * k := by omega
    rw [h3, h4, ih]
    exact (List.replicate_succ _ _).symm

theorem stepBatch_all_length (st : RunAcc α) (b : List α) :
    (stepBatch st b).all.length = st.all.length + b.length := by
  simp only [stepBatch]
  split <;> simp [List.length_append]

theorem stepBatch_flushes_lengths (st : RunAcc α) (b : List α) :
    (stepBatch st b).flushes.map List.length
      = st.flushes.map List.length
        ++ (if 1000 ≤ st.all.length + b.length then [1000] else []) := by
  simp only [stepBatch]
  split
  · next h =>
    rw [if_pos (by simpa [List.length_append] using h)]
    simp only [List.map_append, List.map_cons, List.map_nil, List.length_drop]
    have : (st.all ++ b).length - ((st.all ++ b).length - 1000) = 1000 := by
      rw [List.length_append] at h ⊢
      omega
    rw [this]
  · next h =>
    rw [if_neg (by simpa [List.length_append] using h)]
    simp

theorem foldl_stepBatch_spec (bs : List (List α)) :
    ∀ st : RunAcc α,
      ((bs.foldl stepBatch st).all.length = st.all.length + (bs.map List.length).sum)
      ∧ ((bs.foldl stepBatch st).flushes.map List.length
          = st.flushes.map List.length
            ++ flushLens st.all.length (bs.map List.length)) := by
  induction bs with
  | nil => intro st; simp [flushLens]
  | cons b bs ih =>
    intro st
    simp only [List.foldl_cons, List.map_cons, List.sum_cons]
    rcases ih (stepBatch st b) with ⟨iha, ihf⟩
    constructor
    · rw [iha, stepBatch_all_length]
      omega
    · rw [ihf, stepBatch_flushes_lengths, stepBatch_all_length, flushLens,
        List.append_assoc]

/-- Claim C2 (code bug).  For a run of 2,500 documents all processed
successfully, the paired `store_in_sqlite` / `store_in_qdrant` flush is
called 17 times, not 3: 16 checkpoint flushes of the last 1,000
accumulated documents — one after every 100-document batch from the
moment the total reaches 1,000 — plus a final flush of the last 500.
The flushed batches total 16,500 document slots for 2,500 documents, so
documents are persisted in several checkpoint batches. -/
theorem flush_schedule_2500 :
    ((process_courtlistener_files (List.replicate 2500 ())).flushes.map List.length
        = List.replicate 16 1000 ++ [500])
    ∧ (process_courtlistener_files (List.replicate 2500 ())).flushes.length = 17
    ∧ 2500
        < (((process_courtlistener_files (List.replicate 2500 ())).flushes.map
            List.length).sum) := by
  have hb : batches100 (List.replicate 2500 ())
      = List.replicate 25 (List.replicate 100 ()) := by
    have h := batches100_replicate 25
    norm_num at h
    exact h
  have hspec := foldl_stepBatch_spec (List.replicate 25 (List.replicate 100 ()))
    (⟨[], []⟩ : RunAcc Unit)
  have hmaps : (List.replicate 25 (List.replicate 100 ())).map List.length
      = List.replicate 25 100 := by
    simp
  rw [hmaps] at hspec
  rcases hspec with ⟨hall, hfl⟩
  have hsum : (List.replicate 25 (100 : Nat)).sum = 2500 := by decide
  rw [hsum] at hall
  simp only [List.length_nil, Nat.zero_add, List.map_nil, List.nil_append] at hall hfl
  have hflush : flushLens 0 (List.replicate 25 100) = List.replicate 16 1000 := by decide
  rw [hflush] at hfl
  have hfinal : process_courtlistener_files (List.replicate 2500 ())
      = { all := ((List.replicate 25 (List.replicate 100 ())).foldl stepBatch
            ⟨[], []⟩).all
          flushes := ((List.replicate 25 (List.replicate 100 ())).foldl stepBatch
            ⟨[], []⟩).flushes
            ++ [((List.replicate 25 (List.replicate 100 ())).foldl stepBatch
                ⟨[], []⟩).all.drop 2000] } := by
    simp only [process_courtlistener_files, hb]
    rw [if_neg (by
      intro hemp
      rw [List.isEmpty_iff] at hemp
      rw [hemp] at hall
      simp at hall)]
    rw [if_pos (by rw [hall]; norm_num)]
    rw [hall]
  rw [hfinal]
  refine ⟨?_, ?_, ?_⟩
  · rw [List.map_append, hfl]
    simp only [List.map_cons, List.map_nil, List.length_drop, hall]
  · rw [List.length_append, ← List.length_map, hfl]
    simp
  · rw [List.map_append, hfl]
    simp only [List.map_cons, List.map_nil, List.length_drop, hall]
    decide

/-- Claim C5 (code bug).  The point identifier `hash(doc.id) % 2**63`
depends on the per-process salt of Python's string hash, not on the
document id alone: two executions whose `hash` differs (constant 0
versus constant 1 here) compute different point identifiers for the very
same document, so a re-run duplicates instead of overwriting. -/
theorem qdrant_point_id_depends_on_process_hash :
    (store_in_qdrant env0 [docU]).map (fun p => p.id) = [0]
    ∧ (store_in_qdrant { env0 with pyHash := fun _ => 1 } [docU]).map (fun p => p.id)
        = [1]
    ∧ (store_in_qdrant env0 [docU]).map (fun p => p.id)
        ≠ (store_in_qdrant { env0 with pyHash := fun _ => 1 } [docU]).map
            (fun p => p.id) := by
  refine ⟨rfl, rfl, by decide⟩

/-- Claim C3 witness: the theorem applied at a concrete text, limit and
tokenizer, the tokenizer hypothesis discharged there. -/
theorem chunk_concat_preserves_content_witness :
    nonWS (chunk_legal_document sentTokId "ab\n\ncd".toList 3).flatten
      = nonWS "ab\n\ncd".toList :=
  chunk_concat_preserves_content sentTokId
    (fun p => by simp [sentTokId]) "ab\n\ncd".toList 3

end Juraxis

